/-
Verification of the truck-dump waiting-time optimiser core.

This file gives a shallow embedding, in Lean 4, of the queueing and
departure-time-optimisation core of the truck-optimizer repository
(`config.py`, `queue_simulation.py`, `departure_optimizer.py`) and proves
or refutes the frozen behavioural claims about it.

Modelling conventions:
- Python floats are modelled as rationals (`ℚ`); Python ints as `ℤ`.
- Python dicts keyed by strings are modelled as insertion-ordered
  association lists (`List (String × _)`).
- A Python function that can raise an uncaught exception is modelled as
  returning `Option _`, with `none` marking the raise; a function whose
  body absorbs all exceptions (try/except with a fallback) is total.
- The external pandas timing table is abstracted as a lookup function
  `String → String → String → Option TimeRow` (a `none` result models
  "no exact match"), mirroring `RouteTimeLookup.get_row`.
-/
import Mathlib

/-! ## String helpers

Python's `str.split(sep)` for a one-character separator, and `int(s)`
restricted to the decimal syntax that actually occurs in this code base
(optional sign followed by digits).  Both are defined over `List Char`
so that they reduce well inside `decide`. -/

/-- Split a list of characters at every occurrence of `c`, keeping empty
chunks, as Python's `str.split` does (`''.split(c) == ['']`). -/
def splitOnChar (c : Char) : List Char → List (List Char)
  | [] => [[]]
  | x :: xs =>
    match splitOnChar c xs with
    | [] => [[x]]
    | h :: t => if x = c then [] :: h :: t else (x :: h) :: t

/-- Python `s.split(c)` on strings, via `splitOnChar`. -/
def pySplit (s : String) (c : Char) : List String :=
  (splitOnChar c s.data).map (fun l => { data := l })

/-- Value of a decimal digit sequence; `none` if empty or not all digits. -/
def digitsToNat : List Char → Option ℕ
  | [] => none
  | l =>
    l.foldl
      (fun acc ch =>
        match acc with
        | none => none
        | some n => if ch.isDigit then some (n * 10 + (ch.toNat - 48)) else none)
      (some 0)

/-- Python `int(s)` on the decimal strings used in this repository:
optional `+`/`-` sign followed by one or more digits; anything else
raises `ValueError`, modelled by `none`. -/
def pyInt (s : String) : Option ℤ :=
  match s.data with
  | '-' :: rest => (digitsToNat rest).map (fun n => -(n : ℤ))
  | '+' :: rest => (digitsToNat rest).map (fun n => (n : ℤ))
  | l => (digitsToNat l).map (fun n => (n : ℤ))

/-! ## Location hierarchy (`config.py`)

`FENI_DUMP_POINTS` maps each of the two macro zones to its sub-points;
each sub-point carries its `lines` range string.  The `location_code`,
`distance_base` and `priority` fields of the Python dict are not read by
any function embedded here and are omitted. -/

/-- A location hierarchy: zone name ↦ list of (sub-point name, lines range). -/
abbrev Hierarchy : Type := List (String × List (String × String))

/-- The static `FENI_DUMP_POINTS` hierarchy from `config.py`. -/
def FENI_DUMP_POINTS : Hierarchy :=
  [("FENI KM 0",
    [("FENI A (LINE 1-2)", "1-2"), ("FENI A (LINE 3-4)", "3-4"),
     ("FENI B (LINE 5-6)", "5-6"), ("FENI B (LINE 7-8)", "7-8"),
     ("FENI C (LINE 9-10)", "9-10"), ("FENI C (LINE 11-12)", "11-12"),
     ("FENI D (LINE 13-14)", "13-14"), ("FENI D (LINE 15-16)", "15-16"),
     ("FENI E (LINE 17-18)", "17-18"), ("FENI E (LINE 19-20)", "19-20"),
     ("FENI F1 (LINE 21-22)", "21-22"), ("FENI F2 (LINE 23-24)", "23-24"),
     ("FENI G (LINE 25-26)", "25-26"), ("FENI G (LINE 27-28)", "27-28"),
     ("FENI H (LINE 29-30)", "29-30"), ("FENI H (LINE 31-32)", "31-32"),
     ("FENI K (LINE 33-34)", "33-34"), ("FENI K (LINE 35-36)", "35-36"),
     ("FENI L1 (LINE 37-38)", "37-38"), ("FENI L2 (LINE 39-40)", "39-40"),
     ("FENI L3 (LINE 41-42)", "41-42"), ("FENI M (LINE 43-44)", "43-44"),
     ("FENI M (LINE 45-46)", "45-46"), ("FENI O1 (LINE 47-48)", "47-48"),
     ("FENI O2 (LINE 49-50)", "49-50"), ("FENI Q (LINE 51-52)", "51-52"),
     ("FENI Q (LINE 53-54)", "53-54"), ("FENI R (LINE 55-56)", "55-56"),
     ("FENI S (LINE 57-58)", "57-58"), ("FENI S (LINE 59-60)", "59-60")]),
   ("FENI KM 15",
    [("FENI U1 (LINE 65-66)", "65-66"), ("FENI U2 (LINE 67-68)", "67-68"),
     ("FENI W (LINE 69-70)", "69-70"), ("FENI W (LINE 71-72)", "71-72")])]

/-- Membership test of `k` among the keys of an association list
(Python's `k in d`). -/
def containsKey {α : Type} (l : List (String × α)) (k : String) : Bool :=
  l.any (fun p => p.1 = k)

/-- First value bound to `k` in an association list (Python's `d[k]`,
which cannot fail when `containsKey` holds). -/
def lookupKey {α : Type} (l : List (String × α)) (k : String) : Option α :=
  (l.find? (fun p => p.1 = k)).map Prod.snd

/-- `config.get_main_feni_from_sub_point`: first zone whose sub-points
contain the given name, else `None`. -/
def get_main_feni_h (h : Hierarchy) (sub_point_name : String) : Option String :=
  match h with
  | [] => none
  | (main_feni, cfg) :: rest =>
    if containsKey cfg sub_point_name then some main_feni
    else get_main_feni_h rest sub_point_name

/-- `config.get_main_feni_from_sub_point` on the shipped hierarchy. -/
def get_main_feni_from_sub_point (sub_point_name : String) : Option String :=
  get_main_feni_h FENI_DUMP_POINTS sub_point_name

/-- Successful parse of a `"lo-hi"` lines range: split on `'-'` must give
exactly two integer parts; the value is `max 1 (hi - lo + 1)`.  All three
parse sites in the sources succeed under exactly this condition and
differ only in how they recover from failure. -/
def linesRangeCount (line_str : String) : Option ℤ :=
  let parts := pySplit line_str '-'
  if parts.length = 2 then
    match pyInt (parts.getD 0 ""), pyInt (parts.getD 1 "") with
    | some start, some stop => some (max 1 (stop - start + 1))
    | _, _ => none
  else none

/-- The aggregated-zone summation loop of
`queue_simulation.get_server_count` (its `for sp, sp_cfg in ...` branch):
each well-formed range contributes `max 1 (hi-lo+1)`, each malformed or
non-2-part range contributes 1. -/
def sum_sub_point_lines (sub_points : List (String × String)) : ℤ :=
  sub_points.foldl
    (fun total sp =>
      match linesRangeCount sp.2 with
      | some k => total + k
      | none => total + 1)
    0

/-- `queue_simulation.get_server_count`, parameterised by the hierarchy.
Empty name ⇒ 2; explicit sub-point ⇒ parsed line count (1 on any parse
failure, the `try`/`except` fallback); aggregated name resolvable via
`get_main_feni_from_sub_point` ⇒ summed line counts; otherwise ⇒ 2. -/
def get_server_count_h (h : Hierarchy) (subpoint_name : String) : ℤ :=
  if subpoint_name = "" then 2
  else
    match h.find? (fun zc => containsKey zc.2 subpoint_name) with
    | some zc =>
      match (lookupKey zc.2 subpoint_name).bind linesRangeCount with
      | some k => k
      | none => 1
    | none =>
      match get_main_feni_h h subpoint_name with
      | some main_feni =>
        match lookupKey h main_feni with
        | some cfg => max 1 (sum_sub_point_lines cfg)
        | none => 2
      | none => 2

/-- `queue_simulation.get_server_count` on the shipped hierarchy. -/
def get_server_count (subpoint_name : String) : ℤ :=
  get_server_count_h FENI_DUMP_POINTS subpoint_name

/-- `departure_optimizer._num_servers_for`, parameterised by the
hierarchy.  Unlike `get_server_count` it has no `try`/`except`: a
malformed lines range raises `ValueError`, modelled as `none`. -/
def num_servers_for_h (h : Hierarchy) (sub_point : String) : Option ℤ :=
  match get_main_feni_h h sub_point with
  | none => some 1
  | some main =>
    if containsKey h main then
      match lookupKey h main with
      | none => some 1
      | some cfg =>
        if containsKey cfg sub_point then
          linesRangeCount ((lookupKey cfg sub_point).getD "")
        else
          (cfg.foldlM (fun total sp =>
            (linesRangeCount sp.2).map (fun k => total + k)) 0).map (max 1)
    else some 1

/-- `departure_optimizer._num_servers_for` on the shipped hierarchy
(`FENI_DUMP_POINTS` is imported from `config` at the call site). -/
def num_servers_for (sub_point : String) : Option ℤ :=
  num_servers_for_h FENI_DUMP_POINTS sub_point

/-! ## Multi-server queue simulator (`queue_simulation.multi_server_queue`)

The Python loop keeps `server_free_times`, a list with one entry per
server; each arrival is assigned to the first server attaining the
minimal free time (Python's `min(range(n), key=...)` returns the first
minimiser, i.e. the index of the first occurrence of the minimum). -/

/-- Minimum of a nonempty pool given as head and tail, mirroring the
value `server_free_times[idx]` at `idx = min(range(n), key=...)`. -/
def poolMin (f : ℚ) (fs : List ℚ) : ℚ :=
  fs.foldl min f

/-- One iteration of the `for arrival_time, service_time in arrivals`
loop body: wait accrued and updated `server_free_times`. -/
def queue_step (free : List ℚ) (arrival_time service_time : ℚ) : ℚ × List ℚ :=
  match free with
  | [] => (0, [])
  | f :: fs =>
    let m := poolMin f fs
    let wait := max 0 (m - arrival_time)
    let start_service := arrival_time + wait
    (wait, (f :: fs).set ((f :: fs).indexOf m) (start_service + service_time))

/-- The full loop of `multi_server_queue`, threading the accumulated
`total_wait` and the server pool. -/
def queue_run : List (ℚ × ℚ) → List ℚ → ℚ → ℚ × List ℚ
  | [], _free, total_wait => (total_wait, _free)
  | (a, s) :: rest, free, total_wait =>
    let step := queue_step free a s
    queue_run rest step.2 (total_wait + step.1)

/-- Python `max(list)` on a nonempty list (head and tail given). -/
def list_max : List ℚ → ℚ
  | [] => 0
  | x :: xs => xs.foldl max x

/-- `queue_simulation.multi_server_queue`: deterministic multi-server
queue returning `(avg_wait_minutes, end_time)`.  The pool size is
`max(1, num_servers)`; empty input returns `(0, 0)`. -/
def multi_server_queue (arrivals : List (ℚ × ℚ)) (num_servers : ℤ) : ℚ × ℚ :=
  if arrivals = [] then (0, 0)
  else
    let server_free_times : List ℚ := List.replicate (max 1 num_servers).toNat 0
    let res := queue_run arrivals server_free_times 0
    ((res.1 / (arrivals.length : ℚ)) * 60, list_max res.2)

/-! ## Sorted-pool reformulation of the simulator

For the server-count monotonicity proof the pool of free times is kept
as a list sorted ascending: each arrival is served by the head (the
earliest-free server) and the new free time is re-inserted in order.
`queue_run` is proved equal to this model below. -/

/-- Total wait of the queue loop with a sorted pool. -/
def sorted_run : List (ℚ × ℚ) → List ℚ → ℚ
  | [], _ => 0
  | _ :: rest, [] => sorted_run rest []
  | (a, s) :: rest, f :: fs =>
    max 0 (f - a) + sorted_run rest (List.orderedInsert (· ≤ ·) (max f a + s) fs)

/-! ## Route configuration and timing (`departure_optimizer.py`)

Routes are keyed contractor ↦ parking ↦ attributes.  The external Excel
timing table is abstracted as a lookup function returning the named
numeric columns of a matching row (`none` entries model `NaN` cells,
a `none` row models "no exact match"). -/

/-- One route's attributes (`truck_config.json` entry). -/
structure RouteCfg where
  loading_location : String
  dumping_location : String
  departure_time : String
  number_of_trucks : ℤ
deriving DecidableEq

/-- The nested contractor ↦ parking ↦ route configuration mapping. -/
abbrev Configs : Type := List (String × List (String × RouteCfg))

/-- The timing columns read from a `Time-Data` row by
`compute_route_times`; `none` models a `NaN` cell (`pd.notna` false). -/
structure TimeRow where
  travel_parking_loading : Option ℚ
  waiting_for_loading : Option ℚ
  spoting_loading : Option ℚ
  loading_time : Option ℚ
  loaded_travel : Option ℚ
  dumping : Option ℚ
  dumping_spoting : Option ℚ

/-- `RouteTimeLookup.get_row` abstracted: (parking, loading, dump) ↦ row. -/
abbrev Lookup : Type := String → String → String → Option TimeRow

/-- Reference speed (km/h) used to turn stored times into distances. -/
def REFERENCE_SPEED : ℚ := 25

/-- `departure_optimizer.compute_route_times`.  Numeric defaults from the
source: `default_wait_loading = 0.10`, `default_spot_loading = 0.02`,
`default_loading_time = 0.25`, travel-distance defaults `40.0` km, and
`default_service_time = 0.10`. -/
def compute_route_times (parking loading dump : String)
    (empty_speed loaded_speed : ℚ) (lookup : Lookup) : ℚ × ℚ :=
  match lookup parking loading dump with
  | some row =>
    let travel_parking_loading :=
      match row.travel_parking_loading with
      | some t => (t * REFERENCE_SPEED) / empty_speed
      | none => 40 / empty_speed
    let wait_loading := row.waiting_for_loading.getD (1 / 10)
    let spot_loading := row.spoting_loading.getD (1 / 50)
    let loading_time := row.loading_time.getD (1 / 4)
    let loaded_travel :=
      match row.loaded_travel with
      | some t => (t * REFERENCE_SPEED) / loaded_speed
      | none => 40 / loaded_speed
    let dumping := row.dumping.getD (1 / 10)
    let dump_spot := row.dumping_spoting.getD 0
    (travel_parking_loading + wait_loading + spot_loading + loading_time + loaded_travel,
      dumping + dump_spot)
  | none =>
    (40 / empty_speed + 1 / 10 + 1 / 50 + 1 / 4 + 40 / loaded_speed, 1 / 10)

/-- The departure-time parse inside `build_arrival_events`:
`int(parts[0]) + int(parts[1]) / 60.0 if len(parts) == 2 else 7.0`.
A split into exactly two parts where `int` raises is `none` (the raise
is caught by the per-route `except`, which skips the route); any other
number of parts takes the ternary default `7.0` without raising. -/
def parse_depart_hour (departure_time_str : String) : Option ℚ :=
  let parts := pySplit departure_time_str ':'
  if parts.length = 2 then
    match pyInt (parts.getD 0 ""), pyInt (parts.getD 1 "") with
    | some h, some m => some ((h : ℚ) + (m : ℚ) / 60)
    | _, _ => none
  else some 7

/-- The per-route body of `build_arrival_events`: `none` models the
`continue` (missing locations, non-positive truck count, unmappable dump
location, or an exception absorbed by the route-level `except`).  On
success it yields the dump sub-point, its zone, and one
`(arrival_time, service_time)` event per truck. -/
def route_arrivals (parking_location : String) (cfg : RouteCfg)
    (empty_speed loaded_speed : ℚ) (lookup : Lookup) (spacing : ℚ) :
    Option (String × String × List (ℚ × ℚ)) :=
  if cfg.dumping_location = "" ∨ cfg.loading_location = "" ∨ cfg.number_of_trucks ≤ 0 then
    none
  else
    match get_main_feni_from_sub_point cfg.dumping_location with
    | none => none
    | some main_feni =>
      match parse_depart_hour cfg.departure_time with
      | none => none
      | some depart_hour =>
        let ts := compute_route_times parking_location cfg.loading_location
          cfg.dumping_location empty_speed loaded_speed lookup
        some (cfg.dumping_location, main_feni,
          (List.range cfg.number_of_trucks.toNat).map
            (fun i => (depart_hour + ts.1 + (i : ℚ) * spacing, ts.2)))

/-- Append `v` to the list bound to `k`, creating the binding at the end
if absent (Python dict insertion-order append semantics). -/
def dictAppend {α : Type} (d : List (String × List α)) (k : String) (v : List α) :
    List (String × List α) :=
  if containsKey d k then d.map (fun p => if p.1 = k then (p.1, p.2 ++ v) else p)
  else d ++ [(k, v)]

/-- `departure_optimizer.build_arrival_events`: events and detailed
events (with contractor and zone metadata) grouped by dump sub-point,
each group finally sorted by arrival time (stable sort, as `list.sort`). -/
def build_arrival_events (contractor_configs : Configs)
    (empty_speed loaded_speed : ℚ) (lookup : Lookup) (spacing : ℚ) :
    (List (String × List (ℚ × ℚ))) × (List (String × List (String × ℚ × ℚ × String))) :=
  let built := contractor_configs.foldl
    (fun acc cr =>
      cr.2.foldl
        (fun acc2 pr =>
          match route_arrivals pr.1 pr.2 empty_speed loaded_speed lookup spacing with
          | none => acc2
          | some (dump, main_feni, evs) =>
            (dictAppend acc2.1 dump evs,
             dictAppend acc2.2 dump (evs.map (fun e => (cr.1, e.1, e.2, main_feni)))))
        acc)
    ([], [])
  (built.1.map (fun p => (p.1, p.2.mergeSort (fun a b => decide (a.1 ≤ b.1)))),
   built.2.map (fun p => (p.1, p.2.mergeSort (fun a b => decide (a.2.1 ≤ b.2.1)))))

/-- The inline per-sub-point queue loop of `simulate_wait_times`
(same earliest-free-server discipline as `multi_server_queue`, phrased
with `start = max(arrival, free)` in the source). -/
def sim_run : List (ℚ × ℚ) → List ℚ → ℚ → ℚ × List ℚ
  | [], free, total_wait => (total_wait, free)
  | (a, s) :: rest, free, total_wait =>
    match free with
    | [] => sim_run rest [] total_wait
    | f :: fs =>
      let m := poolMin f fs
      let start := max a m
      sim_run rest ((f :: fs).set ((f :: fs).indexOf m) (start + s)) (total_wait + (start - a))

/-- The `for subpoint, arrivals in events.items()` loop of
`simulate_wait_times`: servers are derived by `_num_servers_for` (whose
raise propagates, hence `Option`), empty groups report 0, others the
average wait in minutes. -/
def subpoint_waits_loop : List (String × List (ℚ × ℚ)) → Option (List (String × ℚ))
  | [] => some []
  | (subpoint, arrivals) :: rest =>
    match num_servers_for subpoint with
    | none => none
    | some servers =>
      match subpoint_waits_loop rest with
      | none => none
      | some r =>
        if arrivals = [] then some ((subpoint, 0) :: r)
        else
          let res := sim_run arrivals (List.replicate servers.toNat 0) 0
          some ((subpoint, (res.1 / (arrivals.length : ℚ)) * 60) :: r)

/-- Add `v` to the integer bound to `k` (`d.get(k, 0) + v`). -/
def dictAdd (d : List (String × ℤ)) (k : String) (v : ℤ) : List (String × ℤ) :=
  if containsKey d k then d.map (fun p => if p.1 = k then (p.1, p.2 + v) else p)
  else d ++ [(k, v)]

/-- Lookup with default (Python `d.get(k, default)`). -/
def lookupD {α : Type} (l : List (String × α)) (k : String) (d : α) : α :=
  (lookupKey l k).getD d

/-- The `trucks_per_subpoint` accumulation of `simulate_wait_times`:
truck counts summed by dump sub-point (routes with an empty dump
location skipped; zero-truck routes still contribute 0). -/
def trucks_per_subpoint (contractor_configs : Configs) : List (String × ℤ) :=
  contractor_configs.foldl
    (fun acc cr =>
      cr.2.foldl
        (fun acc2 pr =>
          if pr.2.dumping_location = "" then acc2
          else dictAdd acc2 pr.2.dumping_location pr.2.number_of_trucks)
        acc)
    []

/-- The zone-aggregation tail of `simulate_wait_times`: accumulate
`avg_wait × trucks` and `trucks` per zone over the sub-point waits, then
divide where the truck total is positive, else report 0.  The
accumulator pairs are (numerator, denominator) for `FENI KM 0` and
`FENI KM 15`; `get_main_feni_from_sub_point` only ever returns these two
zone keys, so the two-way branch covers the Python dict update. -/
def aggregate_zone_waits (subpoint_waits : List (String × ℚ))
    (trucks_per : List (String × ℤ)) : List (String × ℚ) :=
  let totals := subpoint_waits.foldl
    (fun (acc : (ℚ × ℤ) × (ℚ × ℤ)) sw =>
      match get_main_feni_from_sub_point sw.1 with
      | none => acc
      | some z =>
        let trucks := lookupD trucks_per sw.1 0
        if z = "FENI KM 0" then
          ((acc.1.1 + sw.2 * (trucks : ℚ), acc.1.2 + trucks), acc.2)
        else
          (acc.1, (acc.2.1 + sw.2 * (trucks : ℚ), acc.2.2 + trucks)))
    ((0, 0), (0, 0))
  [("FENI KM 0", if totals.1.2 > 0 then totals.1.1 / ((totals.1.2 : ℤ) : ℚ) else 0),
   ("FENI KM 15", if totals.2.2 > 0 then totals.2.1 / ((totals.2.2 : ℤ) : ℚ) else 0)]

/-- `departure_optimizer.simulate_wait_times`: build events, simulate
each sub-point, aggregate to the two macro zones.  Returns the per-zone
average waits (minutes) and the detailed events. -/
def simulate_wait_times (contractor_configs : Configs)
    (empty_speed loaded_speed : ℚ) (lookup : Lookup) (spacing : ℚ) :
    Option (List (String × ℚ) × List (String × List (String × ℚ × ℚ × String))) :=
  let built := build_arrival_events contractor_configs empty_speed loaded_speed lookup spacing
  match subpoint_waits_loop built.1 with
  | none => none
  | some subpoint_waits =>
    some (aggregate_zone_waits subpoint_waits (trucks_per_subpoint contractor_configs),
      built.2)

/-- The targeted in-place update of `evaluate_departure_for_route`
(`config[contractor][route]['departure_time'] = candidate_time`, guarded
by `contractor in config and route in config[contractor]`), applied to
the deep copy: only the matching route's `departure_time` is written. -/
def set_departure (config : Configs) (contractor route candidate_time : String) : Configs :=
  config.map (fun cr =>
    if cr.1 = contractor then
      (cr.1, cr.2.map (fun pr =>
        if pr.1 = route then (pr.1, { pr.2 with departure_time := candidate_time }) else pr))
    else cr)

/-- The trucks-per-zone count inside `evaluate_departure_for_route`
(summed over the candidate's configuration). -/
def trucks_for_zone (config : Configs) (zone : String) : ℤ :=
  config.foldl
    (fun acc cr =>
      cr.2.foldl
        (fun acc2 pr =>
          if get_main_feni_from_sub_point pr.2.dumping_location = some zone then
            acc2 + pr.2.number_of_trucks
          else acc2)
        acc)
    0

/-- `departure_optimizer.evaluate_departure_for_route`: deep-copy the
baseline (or the base configuration), overwrite one route's departure
time, simulate, and form the truck-weighted total wait over both zones. -/
def evaluate_departure_for_route (contractor_configs : Configs)
    (contractor route candidate_time : String) (empty_speed loaded_speed : ℚ)
    (lookup : Lookup) (baseline_configs : Option Configs) (spacing : ℚ) :
    Option (ℚ × List (String × ℚ)) :=
  let config := set_departure (baseline_configs.getD contractor_configs)
    contractor route candidate_time
  match simulate_wait_times config empty_speed loaded_speed lookup spacing with
  | none => none
  | some (wait_times, _) =>
    let total_wait_minutes := ["FENI KM 0", "FENI KM 15"].foldl
      (fun acc zone => acc + lookupD wait_times zone 0 * (trucks_for_zone config zone : ℚ))
      0
    some (total_wait_minutes, wait_times)

/-- Total weighted wait of one candidate as evaluated during the
optimiser's per-route search (the `Option` is erased; it is proved below
to always be `some`). -/
def eval_total (contractor_configs : Configs) (contractor route cand : String)
    (empty_speed loaded_speed : ℚ) (lookup : Lookup) (spacing : ℚ) : ℚ :=
  ((evaluate_departure_for_route contractor_configs contractor route cand
      empty_speed loaded_speed lookup (some contractor_configs) spacing).map Prod.fst).getD 0

/-- The per-route candidate scan of `optimise_departure_times`:
starting from `(current_depart, float('inf'))` (`none` models infinity),
each candidate is evaluated against the original configuration and kept
iff strictly better.  Returns the best departure and its total wait. -/
def best_for_route (contractor_configs : Configs) (contractor route current_depart : String)
    (candidate_times : List String) (empty_speed loaded_speed : ℚ)
    (lookup : Lookup) (spacing : ℚ) : Option (String × Option ℚ) :=
  candidate_times.foldlM
    (fun best cand =>
      (evaluate_departure_for_route contractor_configs contractor route cand
          empty_speed loaded_speed lookup (some contractor_configs) spacing).map
        (fun tw =>
          match best.2 with
          | none => (cand, some tw.1)
          | some bw => if tw.1 < bw then (cand, some tw.1) else best))
    (current_depart, none)

/-- `departure_optimizer.optimise_departure_times`: baseline simulation,
independent per-route candidate search against the original
configuration, then one combined re-simulation with all recommended
departure times applied to a fresh copy. -/
def optimise_departure_times (contractor_configs : Configs)
    (empty_speed loaded_speed : ℚ) (candidate_times : List String)
    (lookup : Lookup) (spacing : ℚ) :
    Option ((List (String × List (String × (String × String)))) ×
      List (String × ℚ) × List (String × ℚ)) :=
  match simulate_wait_times contractor_configs empty_speed loaded_speed lookup spacing with
  | none => none
  | some (baseline_waits, _) =>
    match contractor_configs.mapM (fun cr =>
      (cr.2.mapM (fun pr =>
        (best_for_route contractor_configs cr.1 pr.1 pr.2.departure_time candidate_times
            empty_speed loaded_speed lookup spacing).map
          (fun best => (pr.1, (pr.2.departure_time, best.1))))).map
        (fun rs => (cr.1, rs))) with
    | none => none
    | some recommended =>
      let updated_config := recommended.foldl
        (fun cfg cr => cr.2.foldl (fun cfg2 pr => set_departure cfg2 cr.1 pr.1 pr.2.2) cfg)
        contractor_configs
      match simulate_wait_times updated_config empty_speed loaded_speed lookup spacing with
      | none => none
      | some (optimised_waits, _) =>
        some (recommended, baseline_waits, optimised_waits)

/-- State-passing form of `optimise_departure_times` for the
no-mutation claim: every dict write in the source targets a
`copy.deepcopy` copy (the `config` of `evaluate_departure_for_route` and
the `updated_config` of the second pass), never the caller's
`contractor_configs` object, so the caller-visible state after the call
is the unchanged input.  The second component is that caller-visible
state. -/
def optimise_departure_times_state (contractor_configs : Configs)
    (empty_speed loaded_speed : ℚ) (candidate_times : List String)
    (lookup : Lookup) (spacing : ℚ) :
    Option ((List (String × List (String × (String × String)))) ×
      List (String × ℚ) × List (String × ℚ)) × Configs :=
  (optimise_departure_times contractor_configs empty_speed loaded_speed candidate_times
      lookup spacing,
   contractor_configs)

/-- Weighted numerator of a zone as the specification words it: the sum
over the zone's sub-points of average wait × truck count. -/
def zone_weighted_numerator (zone : String) (sw : List (String × ℚ))
    (tr : List (String × ℤ)) : ℚ :=
  ((sw.filter (fun p => get_main_feni_from_sub_point p.1 = some zone)).map
    (fun p => p.2 * ((lookupD tr p.1 0 : ℤ) : ℚ))).sum

/-- Truck-count denominator of a zone: total trucks over its sub-points. -/
def zone_truck_denominator (zone : String) (sw : List (String × ℚ))
    (tr : List (String × ℤ)) : ℤ :=
  ((sw.filter (fun p => get_main_feni_from_sub_point p.1 = some zone)).map
    (fun p => lookupD tr p.1 0)).sum

/-- The pure per-candidate update of the optimiser scan, with
`float('inf')` as `none`: keep the strictly better candidate.  This is
the `if total_wait < best_total_wait` body of `optimise_departure_times`
expressed through `eval_total` (legitimate because the evaluation is
proved total below). -/
def best_step (contractor_configs : Configs) (contractor route : String)
    (empty_speed loaded_speed : ℚ) (lookup : Lookup) (spacing : ℚ)
    (best : String × Option ℚ) (cand : String) : String × Option ℚ :=
  match best.2 with
  | none =>
    (cand, some (eval_total contractor_configs contractor route cand
      empty_speed loaded_speed lookup spacing))
  | some bw =>
    if eval_total contractor_configs contractor route cand
        empty_speed loaded_speed lookup spacing < bw then
      (cand, some (eval_total contractor_configs contractor route cand
        empty_speed loaded_speed lookup spacing))
    else best

/-- Nested first-match lookup of one route's attributes
(`config[contractor][route]`). -/
def lookupRoute (config : Configs) (c r : String) : Option RouteCfg :=
  (lookupKey config c).bind (fun routes => lookupKey routes r)

theorem poolMin_mem (fs : List ℚ) : ∀ f, poolMin f fs ∈ f :: fs := by
  induction fs with
  | nil => intro f; simp [poolMin]
  | cons y ys ih =>
    intro f
    have hh : poolMin f (y :: ys) = poolMin (min f y) ys := rfl
    rw [hh]
    rcases List.mem_cons.mp (ih (min f y)) with h1 | h2
    · rcases min_choice f y with hm | hm
      · rw [h1, hm]; exact List.mem_cons_self _ _
      · rw [h1, hm]; exact List.mem_cons.mpr (Or.inr (List.mem_cons_self _ _))
    · exact List.mem_cons.mpr (Or.inr (List.mem_cons.mpr (Or.inr h2)))

theorem poolMin_le (fs : List ℚ) : ∀ f, ∀ x ∈ f :: fs, poolMin f fs ≤ x := by
  induction fs with
  | nil =>
    intro f x hx
    rw [List.mem_singleton] at hx
    subst hx
    simp [poolMin]
  | cons y ys ih =>
    intro f x hx
    have hh : poolMin f (y :: ys) = poolMin (min f y) ys := rfl
    rw [hh]
    have hmin : poolMin (min f y) ys ≤ min f y :=
      ih (min f y) (min f y) (List.mem_cons_self _ _)
    rcases List.mem_cons.mp hx with h1 | hx2
    · subst h1
      exact le_trans hmin (min_le_left _ _)
    · rcases List.mem_cons.mp hx2 with h1 | h2
      · subst h1
        exact le_trans hmin (min_le_right _ _)
      · exact ih (min f y) x (List.mem_cons.mpr (Or.inr h2))

theorem set_indexOf_perm :
    ∀ (l : List ℚ) (m v : ℚ), m ∈ l → (l.set (l.indexOf m) v).Perm (v :: l.erase m) := by
  intro l
  induction l with
  | nil => intro m v hm; cases hm
  | cons x xs ih =>
    intro m v hm
    by_cases hx : x = m
    · subst hx
      rw [List.indexOf_cons_self, List.set_cons_zero, List.erase_cons_head]
    · have hm2 : m ∈ xs := by
        rcases List.mem_cons.mp hm with h1 | h2
        · exact absurd h1.symm hx
        · exact h2
      rw [List.indexOf_cons_ne _ hx, Nat.succ_eq_add_one, List.set_cons_succ,
        List.erase_cons_tail (by simpa using fun h => hx h)]
      exact ((ih m v hm2).cons x).trans (List.Perm.swap v x _)

theorem add_max_sub (a f : ℚ) : a + max 0 (f - a) = max f a := by
  rcases le_total f a with h | h
  · rw [max_eq_left (sub_nonpos.mpr h), max_eq_right h, add_zero]
  · rw [max_eq_right (sub_nonneg.mpr h), max_eq_left h]
    ring

theorem queue_run_eq_sorted_run :
    ∀ (arr : List (ℚ × ℚ)) (free sfree : List ℚ) (t : ℚ),
      free.Perm sfree → List.Sorted (· ≤ ·) sfree →
      (queue_run arr free t).1 = t + sorted_run arr sfree := by
  intro arr
  induction arr with
  | nil =>
    intro free sfree t _ _
    simp [queue_run, sorted_run]
  | cons e rest ih =>
    obtain ⟨a, s⟩ := e
    intro free sfree t hp hs
    cases sfree with
    | nil =>
      have hfree : free = [] := hp.eq_nil
      subst hfree
      have h1 : queue_run ((a, s) :: rest) [] t = queue_run rest [] (t + 0) := rfl
      rw [h1, ih [] [] (t + 0) (List.Perm.refl _) List.sorted_nil]
      have h2 : sorted_run ((a, s) :: rest) [] = sorted_run rest [] := rfl
      rw [h2, add_zero]
    | cons f fs =>
      cases free with
      | nil =>
        exact absurd hp.symm.eq_nil (by simp)
      | cons g gs =>
        have hm_mem : poolMin g gs ∈ g :: gs := poolMin_mem gs g
        have hmf : poolMin g gs = f := by
          refine le_antisymm (poolMin_le gs g f (hp.mem_iff.mpr (List.mem_cons_self _ _))) ?_
          rcases List.mem_cons.mp (hp.mem_iff.mp hm_mem) with h1 | h2
          · rw [h1]
          · exact List.rel_of_sorted_cons hs _ h2
        have h1 : queue_run ((a, s) :: rest) (g :: gs) t
            = queue_run rest
                ((g :: gs).set ((g :: gs).indexOf (poolMin g gs))
                  ((a + max 0 (poolMin g gs - a)) + s))
                (t + max 0 (poolMin g gs - a)) := rfl
        rw [h1, hmf]
        have hperm : (((g :: gs).set ((g :: gs).indexOf f) ((a + max 0 (f - a)) + s))).Perm
            (List.orderedInsert (· ≤ ·) (max f a + s) fs) := by
          rw [add_max_sub a f]
          refine (set_indexOf_perm (g :: gs) f (max f a + s) (hmf ▸ hm_mem)).trans ?_
          refine (List.Perm.cons _ ((hp.erase f).trans ?_)).trans
            (List.perm_orderedInsert _ _ _).symm
          rw [List.erase_cons_head]
        have hsorted : List.Sorted (· ≤ ·) (List.orderedInsert (· ≤ ·) (max f a + s) fs) :=
          List.Sorted.orderedInsert _ _ hs.of_cons
        rw [ih _ _ _ hperm hsorted]
        have h2 : sorted_run ((a, s) :: rest) (f :: fs)
            = max 0 (f - a) + sorted_run rest (List.orderedInsert (· ≤ ·) (max f a + s) fs) := rfl
        rw [h2, add_assoc]

/-! ## Order-statistic lemmas for the monotonicity proof

For a sorted pool `w`, the `i`-th entry is at most `c` exactly when at
least `i+1` entries are at most `c`; pointwise domination of matched
entries carries over to these counts and hence survives an ordered
insertion on both sides. -/

theorem sorted_countP_ge (c : ℚ) :
    ∀ (w : List ℚ), List.Sorted (· ≤ ·) w → ∀ i, i < w.length → w.getD i 0 ≤ c →
      i + 1 ≤ w.countP (fun z => decide (z ≤ c)) := by
  intro w
  induction w with
  | nil => intro _ i hi; exact absurd hi (by simp)
  | cons w0 w' ih =>
    intro hs i hi hle
    cases i with
    | zero =>
      rw [List.getD_cons_zero] at hle
      rw [List.countP_cons]
      simp [hle]
    | succ i =>
      rw [List.getD_cons_succ] at hle
      have hi' : i < w'.length := Nat.lt_of_succ_lt_succ hi
      have hih := ih hs.of_cons i hi' hle
      have hw0 : w0 ≤ c := by
        refine le_trans (List.rel_of_sorted_cons hs (w'.getD i 0) ?_) hle
        rw [List.getD_eq_getElem _ _ hi']
        exact List.getElem_mem hi'
      rw [List.countP_cons, if_pos (decide_eq_true hw0)]
      omega

theorem le_of_sorted_countP (c : ℚ) :
    ∀ (w : List ℚ), List.Sorted (· ≤ ·) w → ∀ i, i < w.length →
      i + 1 ≤ w.countP (fun z => decide (z ≤ c)) → w.getD i 0 ≤ c := by
  intro w
  induction w with
  | nil => intro _ i hi; exact absurd hi (by simp)
  | cons w0 w' ih =>
    intro hs i hi hcount
    cases i with
    | zero =>
      rw [List.getD_cons_zero]
      by_contra hw0
      have hzero : w'.countP (fun z => decide (z ≤ c)) = 0 := by
        rw [List.countP_eq_zero]
        intro z hz
        simp only [decide_eq_true_eq]
        intro hzc
        exact hw0 (le_trans (List.rel_of_sorted_cons hs z hz) hzc)
      rw [List.countP_cons, hzero] at hcount
      simp [hw0] at hcount
    | succ i =>
      rw [List.getD_cons_succ]
      have hi' : i < w'.length := Nat.lt_of_succ_lt_succ hi
      refine ih hs.of_cons i hi' ?_
      rw [List.countP_cons] at hcount
      split at hcount <;> omega

theorem dom_countP_le (c : ℚ) :
    ∀ (u v : List ℚ), u.length ≤ v.length →
      (∀ i, i < u.length → v.getD i 0 ≤ u.getD i 0) →
      u.countP (fun z => decide (z ≤ c)) ≤
        (v.take u.length).countP (fun z => decide (z ≤ c)) := by
  intro u
  induction u with
  | nil => intro v _ _; simp
  | cons u0 u' ih =>
    intro v hlen hdom
    cases v with
    | nil => exact absurd hlen (by simp)
    | cons v0 v' =>
      have htake : (v0 :: v').take (u0 :: u').length = v0 :: v'.take u'.length := by
        simp [List.take_cons]
      rw [htake, List.countP_cons, List.countP_cons]
      have hv0 : v0 ≤ u0 := by
        have := hdom 0 (by simp)
        simpa using this
      have hih : u'.countP (fun z => decide (z ≤ c)) ≤
          (v'.take u'.length).countP (fun z => decide (z ≤ c)) := by
        refine ih v' (by simpa using hlen) ?_
        intro i hi
        have := hdom (i + 1) (by simpa using Nat.succ_lt_succ hi)
        simpa using this
      have hcf : (if decide (u0 ≤ c) = true then 1 else 0)
          ≤ (if decide (v0 ≤ c) = true then 1 else 0) := by
        by_cases h : u0 ≤ c
        · simp [h, le_trans hv0 h]
        · simp [h]
      omega

theorem dom_orderedInsert (u v : List ℚ) (x y : ℚ)
    (hu : List.Sorted (· ≤ ·) u) (hv : List.Sorted (· ≤ ·) v)
    (hlen : u.length ≤ v.length)
    (hdom : ∀ i, i < u.length → v.getD i 0 ≤ u.getD i 0)
    (hyx : y ≤ x) :
    (List.orderedInsert (· ≤ ·) x u).length ≤ (List.orderedInsert (· ≤ ·) y v).length ∧
    ∀ i, i < (List.orderedInsert (· ≤ ·) x u).length →
      (List.orderedInsert (· ≤ ·) y v).getD i 0 ≤ (List.orderedInsert (· ≤ ·) x u).getD i 0 := by
  constructor
  · rw [List.orderedInsert_length, List.orderedInsert_length]
    omega
  · intro i hi
    rw [List.orderedInsert_length] at hi
    set c := (List.orderedInsert (· ≤ ·) x u).getD i 0 with hc
    have hsu : List.Sorted (· ≤ ·) (List.orderedInsert (· ≤ ·) x u) :=
      List.Sorted.orderedInsert _ _ hu
    have hsv : List.Sorted (· ≤ ·) (List.orderedInsert (· ≤ ·) y v) :=
      List.Sorted.orderedInsert _ _ hv
    have h1 : i + 1 ≤ (List.orderedInsert (· ≤ ·) x u).countP (fun z => decide (z ≤ c)) := by
      refine sorted_countP_ge c _ hsu i ?_ (le_of_eq hc.symm)
      rw [List.orderedInsert_length]
      exact hi
    have h2 : (List.orderedInsert (· ≤ ·) x u).countP (fun z => decide (z ≤ c))
        = u.countP (fun z => decide (z ≤ c)) + (if decide (x ≤ c) = true then 1 else 0) := by
      rw [(List.perm_orderedInsert _ x u).countP_eq, List.countP_cons]
    have h3 : u.countP (fun z => decide (z ≤ c)) ≤ v.countP (fun z => decide (z ≤ c)) :=
      le_trans (dom_countP_le c u v hlen hdom)
        (List.Sublist.countP_le _ (List.take_sublist _ _))
    have h4 : (if decide (x ≤ c) = true then 1 else 0)
        ≤ (if decide (y ≤ c) = true then 1 else 0) := by
      by_cases h : x ≤ c
      · simp [h, le_trans hyx h]
      · simp [h]
    have h5 : (List.orderedInsert (· ≤ ·) y v).countP (fun z => decide (z ≤ c))
        = v.countP (fun z => decide (z ≤ c)) + (if decide (y ≤ c) = true then 1 else 0) := by
      rw [(List.perm_orderedInsert _ y v).countP_eq, List.countP_cons]
    refine le_of_sorted_countP c _ hsv i ?_ ?_
    · rw [List.orderedInsert_length]
      omega
    · omega

theorem sorted_run_mono :
    ∀ (arr : List (ℚ × ℚ)) (u v : List ℚ),
      List.Sorted (· ≤ ·) u → List.Sorted (· ≤ ·) v →
      u.length ≤ v.length →
      (∀ i, i < u.length → v.getD i 0 ≤ u.getD i 0) →
      (u = [] → v = []) →
      sorted_run arr v ≤ sorted_run arr u := by
  intro arr
  induction arr with
  | nil =>
    intro u v _ _ _ _ _
    exact le_refl 0
  | cons e rest ih =>
    obtain ⟨a, s⟩ := e
    intro u v hu hv hlen hdom hnil
    cases u with
    | nil =>
      rw [hnil rfl]
    | cons u0 u' =>
      cases v with
      | nil => exact absurd hlen (by simp)
      | cons v0 v' =>
        have hv0 : v0 ≤ u0 := by
          have := hdom 0 (by simp)
          simpa using this
        have hwait : max 0 (v0 - a) ≤ max 0 (u0 - a) :=
          max_le_max (le_refl 0) (sub_le_sub_right hv0 a)
        have hyx : max v0 a + s ≤ max u0 a + s :=
          add_le_add_right (max_le_max hv0 (le_refl a)) s
        have hdom' : ∀ i, i < u'.length → v'.getD i 0 ≤ u'.getD i 0 := by
          intro i hi
          have := hdom (i + 1) (by simpa using Nat.succ_lt_succ hi)
          simpa using this
        have hrec := dom_orderedInsert u' v' (max u0 a + s) (max v0 a + s)
          hu.of_cons hv.of_cons (by simpa using hlen) hdom' hyx
        have h1 : sorted_run ((a, s) :: rest) (v0 :: v')
            = max 0 (v0 - a) + sorted_run rest (List.orderedInsert (· ≤ ·) (max v0 a + s) v') := rfl
        have h2 : sorted_run ((a, s) :: rest) (u0 :: u')
            = max 0 (u0 - a) + sorted_run rest (List.orderedInsert (· ≤ ·) (max u0 a + s) u') := rfl
        rw [h1, h2]
        refine add_le_add hwait ?_
        refine ih _ _ (List.Sorted.orderedInsert _ _ hu.of_cons)
          (List.Sorted.orderedInsert _ _ hv.of_cons) hrec.1 hrec.2 ?_
        intro hempty
        exfalso
        have := congrArg List.length hempty
        rw [List.orderedInsert_length] at this
        simp at this

/-! ## Association-list and totality lemmas -/

theorem lookupKey_mem {α : Type} :
    ∀ (l : List (String × α)) (k : String), containsKey l k = true →
      ∃ v, lookupKey l k = some v ∧ (k, v) ∈ l := by
  intro l
  induction l with
  | nil => intro k hk; simp [containsKey] at hk
  | cons p rest ih =>
    intro k hk
    by_cases hp : p.1 = k
    · refine ⟨p.2, ?_, ?_⟩
      · simp [lookupKey, List.find?, hp]
      · rw [← hp]
        exact List.mem_cons_self _ _
    · have hk2 : containsKey rest k = true := by
        simp only [containsKey, List.any_cons, Bool.or_eq_true, decide_eq_true_eq] at hk
        rcases hk with h | h
        · exact absurd h hp
        · simpa [containsKey] using h
      obtain ⟨v, hv, hm⟩ := ih k hk2
      refine ⟨v, ?_, List.mem_cons.mpr (Or.inr hm)⟩
      simpa [lookupKey, List.find?, hp] using hv

theorem get_main_feni_h_mem :
    ∀ (H : Hierarchy) (s z : String), get_main_feni_h H s = some z →
      ∃ c, (z, c) ∈ H ∧ containsKey c s = true := by
  intro H
  induction H with
  | nil => intro s z h; simp [get_main_feni_h] at h
  | cons zc rest ih =>
    intro s z h
    obtain ⟨m, cfg⟩ := zc
    by_cases hc : containsKey cfg s = true
    · rw [get_main_feni_h, if_pos hc] at h
      injection h with h
      subst h
      exact ⟨cfg, List.mem_cons_self _ _, hc⟩
    · rw [get_main_feni_h, if_neg hc] at h
      obtain ⟨c, hmem, hcs⟩ := ih s z h
      exact ⟨c, List.mem_cons.mpr (Or.inr hmem), hcs⟩

theorem foldlM_option_isSome {α β : Type} (f : β → α → Option β) :
    ∀ (l : List α) (init : β), (∀ x ∈ l, ∀ b, (f b x).isSome) →
      (List.foldlM f init l).isSome := by
  intro l
  induction l with
  | nil => intro init _; simp
  | cons x xs ih =>
    intro init hall
    obtain ⟨b, hb⟩ := Option.isSome_iff_exists.mp (hall x (List.mem_cons_self _ _) init)
    rw [List.foldlM_cons, hb]
    show (List.foldlM f b xs).isSome = true
    exact ih b (fun y hy c => hall y (List.mem_cons.mpr (Or.inr hy)) c)

theorem num_servers_for_h_isSome (H : Hierarchy) (s : String)
    (hwf : ∀ zc ∈ H, ∀ p ∈ zc.2, (linesRangeCount p.2).isSome) :
    (num_servers_for_h H s).isSome := by
  cases hmain : get_main_feni_h H s with
  | none => simp [num_servers_for_h, hmain]
  | some z =>
    obtain ⟨c, hcz, hcs⟩ := get_main_feni_h_mem H s z hmain
    have hck : containsKey H z = true := by
      simp only [containsKey, List.any_eq_true, decide_eq_true_eq]
      exact ⟨(z, c), hcz, rfl⟩
    simp only [num_servers_for_h, hmain]
    rw [if_pos hck]
    obtain ⟨v, hv, hm⟩ := lookupKey_mem H z hck
    simp only [hv]
    by_cases hsc : containsKey v s = true
    · rw [if_pos hsc]
      obtain ⟨lv, hlv, hlm⟩ := lookupKey_mem v s hsc
      rw [hlv, Option.getD_some]
      exact hwf (z, v) hm (s, lv) hlm
    · rw [if_neg hsc]
      have hf : (List.foldlM
          (fun total sp => (linesRangeCount sp.2).map (fun k => total + k)) (0 : ℤ)
          v).isSome := by
        refine foldlM_option_isSome _ v 0 ?_
        intro x hx b
        obtain ⟨k, hk⟩ := Option.isSome_iff_exists.mp (hwf (z, v) hm x hx)
        rw [hk]
        simp
      obtain ⟨b, hb⟩ := Option.isSome_iff_exists.mp hf
      rw [hb]
      simp

theorem num_servers_for_isSome (s : String) : (num_servers_for s).isSome :=
  num_servers_for_h_isSome FENI_DUMP_POINTS s (by decide)

theorem subpoint_waits_loop_isSome :
    ∀ (events : List (String × List (ℚ × ℚ))), (subpoint_waits_loop events).isSome := by
  intro events
  induction events with
  | nil => simp [subpoint_waits_loop]
  | cons e rest ih =>
    obtain ⟨sp, arr⟩ := e
    unfold subpoint_waits_loop
    obtain ⟨srv, hsrv⟩ := Option.isSome_iff_exists.mp (num_servers_for_isSome sp)
    rw [hsrv]
    obtain ⟨r, hr⟩ := Option.isSome_iff_exists.mp ih
    rw [hr]
    by_cases ha : arr = [] <;> simp [ha]

theorem simulate_wait_times_isSome (c : Configs) (es ls : ℚ) (lk : Lookup) (sp : ℚ) :
    (simulate_wait_times c es ls lk sp).isSome := by
  obtain ⟨sw, hsw⟩ := Option.isSome_iff_exists.mp
    (subpoint_waits_loop_isSome (build_arrival_events c es ls lk sp).1)
  simp only [simulate_wait_times]
  rw [hsw]
  simp

theorem evaluate_departure_isSome (configs : Configs) (c r t : String) (es ls : ℚ)
    (lk : Lookup) (b : Option Configs) (sp : ℚ) :
    (evaluate_departure_for_route configs c r t es ls lk b sp).isSome := by
  obtain ⟨res, hres⟩ := Option.isSome_iff_exists.mp
    (simulate_wait_times_isSome (set_departure (b.getD configs) c r t) es ls lk sp)
  simp only [evaluate_departure_for_route]
  rw [hres]
  obtain ⟨wt, de⟩ := res
  simp

/-! ## The optimiser's candidate scan as a pure fold -/

theorem best_for_route_eq_foldl (configs : Configs) (c r cur : String)
    (cands : List String) (es ls : ℚ) (lk : Lookup) (sp : ℚ) :
    best_for_route configs c r cur cands es ls lk sp
      = some (cands.foldl (best_step configs c r es ls lk sp) (cur, none)) := by
  suffices h : ∀ (cs : List String) (init : String × Option ℚ),
      List.foldlM
        (fun best cand =>
          (evaluate_departure_for_route configs c r cand es ls lk (some configs) sp).map
            (fun tw =>
              match best.2 with
              | none => (cand, some tw.1)
              | some bw => if tw.1 < bw then (cand, some tw.1) else best))
        init cs
        = some (cs.foldl (best_step configs c r es ls lk sp) init) by
    exact h cands (cur, none)
  intro cs
  induction cs with
  | nil => intro init; simp
  | cons x xs ih =>
    intro init
    obtain ⟨tw, htw⟩ := Option.isSome_iff_exists.mp
      (evaluate_departure_isSome configs c r x es ls lk (some configs) sp)
    rw [List.foldlM_cons, htw]
    have hstep :
        (match init.2 with
          | none => (x, some tw.1)
          | some bw => if tw.1 < bw then (x, some tw.1) else init)
          = best_step configs c r es ls lk sp init x := by
      have htot : eval_total configs c r x es ls lk sp = tw.1 := by
        simp [eval_total, htw]
      cases hi : init.2 with
      | none => simp only [best_step, hi, htot]
      | some bw => simp only [best_step, hi, htot]
    rw [Option.map_some']
    show List.foldlM
        (fun best cand =>
          (evaluate_departure_for_route configs c r cand es ls lk (some configs) sp).map
            (fun tw =>
              match best.2 with
              | none => (cand, some tw.1)
              | some bw => if tw.1 < bw then (cand, some tw.1) else best))
        (match init.2 with
          | none => (x, some tw.1)
          | some bw => if tw.1 < bw then (x, some tw.1) else init) xs
        = some ((x :: xs).foldl (best_step configs c r es ls lk sp) init)
    rw [hstep, ih, List.foldl_cons]

theorem best_foldl_never_increases (configs : Configs) (c r : String)
    (es ls : ℚ) (lk : Lookup) (sp : ℚ) :
    ∀ (cands : List String) (init : String × Option ℚ) (w0 : ℚ), init.2 = some w0 →
      ∃ w, (cands.foldl (best_step configs c r es ls lk sp) init).2 = some w ∧ w ≤ w0 := by
  intro cands
  induction cands with
  | nil => intro init w0 h; exact ⟨w0, h, le_refl _⟩
  | cons x xs ih =>
    intro init w0 h
    have hstep : best_step configs c r es ls lk sp init x
        = if eval_total configs c r x es ls lk sp < w0 then
            (x, some (eval_total configs c r x es ls lk sp))
          else init := by
      simp only [best_step, h]
    rw [List.foldl_cons, hstep]
    by_cases hlt : eval_total configs c r x es ls lk sp < w0
    · rw [if_pos hlt]
      obtain ⟨w, hw, hle⟩ := ih (x, some (eval_total configs c r x es ls lk sp)) _ rfl
      exact ⟨w, hw, le_trans hle (le_of_lt hlt)⟩
    · rw [if_neg hlt]
      exact ih init w0 h

theorem best_foldl_le (configs : Configs) (c r : String) (es ls : ℚ) (lk : Lookup) (sp : ℚ) :
    ∀ (cands : List String) (init : String × Option ℚ) (cand : String), cand ∈ cands →
      ∃ w, (cands.foldl (best_step configs c r es ls lk sp) init).2 = some w ∧
        w ≤ eval_total configs c r cand es ls lk sp := by
  intro cands
  induction cands with
  | nil => intro init cand h; cases h
  | cons x xs ih =>
    intro init cand hc
    rw [List.foldl_cons]
    rcases List.mem_cons.mp hc with h | h
    · subst h
      have hstep : ∃ w0, (best_step configs c r es ls lk sp init cand).2 = some w0 ∧
          w0 ≤ eval_total configs c r cand es ls lk sp := by
        cases hi : init.2 with
        | none =>
          refine ⟨eval_total configs c r cand es ls lk sp, ?_, le_refl _⟩
          simp only [best_step, hi]
        | some bw =>
          by_cases hlt : eval_total configs c r cand es ls lk sp < bw
          · refine ⟨eval_total configs c r cand es ls lk sp, ?_, le_refl _⟩
            simp only [best_step, hi, if_pos hlt]
          · refine ⟨bw, ?_, le_of_not_lt hlt⟩
            simp only [best_step, hi, if_neg hlt]
      obtain ⟨w0, hw0, hle0⟩ := hstep
      obtain ⟨w, hw, hle⟩ := best_foldl_never_increases configs c r es ls lk sp xs
        (best_step configs c r es ls lk sp init cand) w0 hw0
      exact ⟨w, hw, le_trans hle hle0⟩
    · exact ih (best_step configs c r es ls lk sp init x) cand h

theorem best_step_coherent (configs : Configs) (c r : String) (es ls : ℚ)
    (lk : Lookup) (sp : ℚ) (init : String × Option ℚ) (x : String)
    (hinit : ∀ w, init.2 = some w → w = eval_total configs c r init.1 es ls lk sp) :
    ∀ w, (best_step configs c r es ls lk sp init x).2 = some w →
      w = eval_total configs c r (best_step configs c r es ls lk sp init x).1 es ls lk sp := by
  intro w hw
  cases hi : init.2 with
  | none =>
    simp only [best_step, hi] at hw ⊢
    injection hw with hw
    rw [← hw]
  | some bw =>
    by_cases hlt : eval_total configs c r x es ls lk sp < bw
    · simp only [best_step, hi, if_pos hlt] at hw ⊢
      injection hw with hw
      rw [← hw]
    · simp only [best_step, hi, if_neg hlt] at hw ⊢
      exact hinit w (hi.trans hw)

theorem best_foldl_coherent (configs : Configs) (c r : String) (es ls : ℚ)
    (lk : Lookup) (sp : ℚ) :
    ∀ (cands : List String) (init : String × Option ℚ),
      (∀ w, init.2 = some w → w = eval_total configs c r init.1 es ls lk sp) →
      ∀ w, (cands.foldl (best_step configs c r es ls lk sp) init).2 = some w →
        w = eval_total configs c r
          (cands.foldl (best_step configs c r es ls lk sp) init).1 es ls lk sp := by
  intro cands
  induction cands with
  | nil => intro init hinit w hw; exact hinit w hw
  | cons x xs ih =>
    intro init hinit w hw
    rw [List.foldl_cons] at hw ⊢
    exact ih (best_step configs c r es ls lk sp init x)
      (best_step_coherent configs c r es ls lk sp init x hinit) w hw

theorem mapM_option_mem_exists {α β : Type} (f : α → Option β) :
    ∀ (l : List α) (res : List β), l.mapM f = some res →
      ∀ b ∈ res, ∃ a ∈ l, f a = some b := by
  intro l
  induction l with
  | nil =>
    intro res h b hb
    rw [List.mapM_nil] at h
    have h2 : ([] : List β) = res := by simpa using h
    subst h2
    cases hb
  | cons x xs ih =>
    intro res h b hb
    rw [List.mapM_cons] at h
    cases hfx : f x with
    | none => rw [hfx] at h; simp at h
    | some y =>
      rw [hfx] at h
      cases hm : xs.mapM f with
      | none => rw [hm] at h; simp at h
      | some ys =>
        rw [hm] at h
        have h4 : y :: ys = res := by simpa using h
        subst h4
        rcases List.mem_cons.mp hb with hb1 | hb1
        · exact ⟨x, List.mem_cons_self _ _, hb1 ▸ hfx⟩
        · obtain ⟨a, ha, hfa⟩ := ih ys hm b hb1
          exact ⟨a, List.mem_cons.mpr (Or.inr ha), hfa⟩

theorem optimise_some_inv (configs : Configs) (es ls : ℚ) (cands : List String)
    (lk : Lookup) (sp : ℚ) (recs : List (String × List (String × String × String)))
    (b o : List (String × ℚ))
    (h : optimise_departure_times configs es ls cands lk sp = some (recs, b, o)) :
    configs.mapM (fun cr =>
      (cr.2.mapM (fun pr =>
        (best_for_route configs cr.1 pr.1 pr.2.departure_time cands
            es ls lk sp).map
          (fun best => (pr.1, (pr.2.departure_time, best.1))))).map
        (fun rs => (cr.1, rs))) = some recs := by
  unfold optimise_departure_times at h
  split at h
  · exact absurd h (by simp)
  · next p1 heq1 =>
    split at h
    · exact absurd h (by simp)
    · next recommended heq2 =>
      dsimp only at h
      split at h
      · exact absurd h (by simp)
      · next p3 heq3 =>
        rw [heq2]
        injection h with h
        rw [Prod.ext_iff] at h
        exact congrArg some h.1

/-- Claim C3: for every route whose current departure time is among the
candidate list, the candidate chosen by `optimise_departure_times` has a
total truck-weighted wait (as evaluated by the optimiser's own
`evaluate_departure_for_route` against the original configuration) no
larger than that of the route's current departure time. -/
theorem c3_optimiser_non_regression
    (configs : Configs) (es ls : ℚ) (cands : List String) (lk : Lookup) (sp : ℚ)
    (recs : List (String × List (String × String × String)))
    (b o : List (String × ℚ))
    (hopt : optimise_departure_times configs es ls cands lk sp = some (recs, b, o))
    (c : String) (rrecs : List (String × String × String)) (hc : (c, rrecs) ∈ recs)
    (r cur opt : String) (hr : (r, cur, opt) ∈ rrecs) (hcur : cur ∈ cands) :
    eval_total configs c r opt es ls lk sp ≤ eval_total configs c r cur es ls lk sp := by
  have hmap := optimise_some_inv configs es ls cands lk sp recs b o hopt
  obtain ⟨cr, hcrmem, hcr⟩ := mapM_option_mem_exists _ configs recs hmap (c, rrecs) hc
  cases hin : cr.2.mapM (fun pr =>
      (best_for_route configs cr.1 pr.1 pr.2.departure_time cands es ls lk sp).map
        (fun best => (pr.1, (pr.2.departure_time, best.1)))) with
  | none => rw [hin] at hcr; simp at hcr
  | some rs =>
    rw [hin, Option.map_some'] at hcr
    injection hcr with hcr
    have hc1 : cr.1 = c := congrArg Prod.fst hcr
    have hrs : rs = rrecs := congrArg Prod.snd hcr
    subst hrs
    obtain ⟨pr, hprmem, hpr⟩ := mapM_option_mem_exists _ cr.2 rs hin (r, cur, opt) hr
    cases hbest : best_for_route configs cr.1 pr.1 pr.2.departure_time cands es ls lk sp with
    | none => rw [hbest] at hpr; simp at hpr
    | some bestp =>
      rw [hbest, Option.map_some'] at hpr
      injection hpr with hpr
      have hr1 : pr.1 = r := congrArg Prod.fst hpr
      have hcur2 : pr.2.departure_time = cur := congrArg (fun q => q.2.1) hpr
      have hopt2 : bestp.1 = opt := congrArg (fun q => q.2.2) hpr
      rw [best_for_route_eq_foldl] at hbest
      injection hbest with hbest
      rw [← hc1, ← hr1, ← hcur2, ← hopt2]
      rw [← hcur2] at hcur
      obtain ⟨w, hw, hle⟩ := best_foldl_le configs cr.1 pr.1 es ls lk sp cands
        (pr.2.departure_time, none) pr.2.departure_time hcur
      have hcoh := best_foldl_coherent configs cr.1 pr.1 es ls lk sp cands
        (pr.2.departure_time, none) (fun w2 hw2 => Option.noConfusion hw2) w hw
      rw [hbest] at hcoh
      rw [← hcoh]
      exact hle

theorem sorted_replicate (n : ℕ) : List.Sorted (· ≤ ·) (List.replicate n (0 : ℚ)) := by
  induction n with
  | zero => simp
  | succ n ih =>
    rw [List.replicate_succ, List.sorted_cons]
    exact ⟨fun b hb => le_of_eq (List.eq_of_mem_replicate hb).symm, ih⟩

theorem getD_replicate_zero : ∀ (n i : ℕ), (List.replicate n (0 : ℚ)).getD i 0 = 0 := by
  intro n
  induction n with
  | zero => intro i; simp [List.getD]
  | succ n ih =>
    intro i
    cases i with
    | zero => simp [List.replicate_succ]
    | succ i =>
      rw [List.replicate_succ, List.getD_cons_succ]
      exact ih i

/-- Claim C6: for a sorted arrival list and server counts `1 ≤ m ≤ n`,
the average wait of `multi_server_queue` with `n` servers is at most
that with `m` servers. -/
theorem c6_multi_server_queue_monotone
    (arrivals : List (ℚ × ℚ)) (m n : ℤ)
    (hsorted : List.Sorted (· ≤ ·) (arrivals.map Prod.fst))
    (hm : 1 ≤ m) (hmn : m ≤ n) :
    (multi_server_queue arrivals n).1 ≤ (multi_server_queue arrivals m).1 := by
  by_cases he : arrivals = []
  · subst he
    simp [multi_server_queue]
  · have hm1 : max 1 m = m := max_eq_right hm
    have hn1 : max 1 n = n := max_eq_right (le_trans hm hmn)
    have htoNat : (max 1 m).toNat ≤ (max 1 n).toNat := by
      rw [hm1, hn1]
      exact Int.toNat_le_toNat hmn
    have hmpos : 1 ≤ (max 1 m).toNat := by
      rw [hm1]
      omega
    have hbridge : ∀ k : ℕ,
        (queue_run arrivals (List.replicate k (0 : ℚ)) 0).1
          = sorted_run arrivals (List.replicate k (0 : ℚ)) := by
      intro k
      have h := queue_run_eq_sorted_run arrivals (List.replicate k (0 : ℚ))
        (List.replicate k (0 : ℚ)) 0 (List.Perm.refl _) (sorted_replicate k)
      rw [h, zero_add]
    have hmono : sorted_run arrivals (List.replicate (max 1 n).toNat (0 : ℚ))
        ≤ sorted_run arrivals (List.replicate (max 1 m).toNat (0 : ℚ)) := by
      refine sorted_run_mono arrivals _ _ (sorted_replicate _) (sorted_replicate _) ?_ ?_ ?_
      · rw [List.length_replicate, List.length_replicate]
        exact htoNat
      · intro i _
        rw [getD_replicate_zero, getD_replicate_zero]
      · intro hx
        exfalso
        have := congrArg List.length hx
        rw [List.length_replicate, List.length_nil] at this
        omega
    have hlen : (0 : ℚ) < (arrivals.length : ℚ) := by
      have : 0 < arrivals.length := List.length_pos.mpr he
      exact_mod_cast this
    simp only [multi_server_queue, if_neg he]
    rw [hbridge, hbridge]
    have hdiv : sorted_run arrivals (List.replicate (max 1 n).toNat (0 : ℚ))
          / (arrivals.length : ℚ)
        ≤ sorted_run arrivals (List.replicate (max 1 m).toNat (0 : ℚ))
          / (arrivals.length : ℚ) := by
      gcongr
    exact mul_le_mul_of_nonneg_right hdiv (by norm_num)

/-! ## Frame lemmas for the per-candidate configuration update -/

theorem lookupKey_inner_update :
    ∀ (l : List (String × RouteCfg)) (route cand r : String),
      lookupKey (l.map (fun pr =>
          if pr.1 = route then (pr.1, { pr.2 with departure_time := cand }) else pr)) r
        = if r = route then
            (lookupKey l r).map (fun cfg => { cfg with departure_time := cand })
          else lookupKey l r := by
  intro l
  induction l with
  | nil =>
    intro route cand r
    by_cases h : r = route <;> simp [lookupKey, h]
  | cons p rest ih =>
    intro route cand r
    by_cases hpr : p.1 = r
    · by_cases hrt : r = route
      · have hpt : p.1 = route := hpr.trans hrt
        simp only [List.map_cons, if_pos hpt, lookupKey, List.find?]
        rw [if_pos hrt]
        simp [hpr]
      · have hpt : ¬p.1 = route := fun h => hrt (hpr.symm.trans h)
        simp only [List.map_cons, if_neg hpt, lookupKey, List.find?]
        rw [if_neg hrt]
        simp [hpr]
    · have hstep : lookupKey ((if p.1 = route then
          (p.1, { p.2 with departure_time := cand }) else p) :: rest.map (fun pr =>
          if pr.1 = route then (pr.1, { pr.2 with departure_time := cand }) else pr)) r
          = lookupKey (rest.map (fun pr =>
              if pr.1 = route then (pr.1, { pr.2 with departure_time := cand }) else pr)) r := by
        by_cases hpt : p.1 = route
        · have hroute_r : ¬(route = r) := fun h => hpr (hpt.trans h)
          simp [hpt, lookupKey, List.find?, hroute_r]
        · simp [hpt, lookupKey, List.find?, hpr]
      rw [List.map_cons, hstep, ih]
      by_cases hrt : r = route
      · rw [if_pos hrt, if_pos hrt]
        have : lookupKey (p :: rest) r = lookupKey rest r := by
          simp [lookupKey, List.find?, hpr]
        rw [this]
      · rw [if_neg hrt, if_neg hrt]
        simp [lookupKey, List.find?, hpr]

theorem lookupKey_outer_update (config : Configs) (contractor route cand c : String) :
    lookupKey (set_departure config contractor route cand) c
      = if c = contractor then
          (lookupKey config c).map (fun routes => routes.map (fun pr =>
            if pr.1 = route then (pr.1, { pr.2 with departure_time := cand }) else pr))
        else lookupKey config c := by
  induction config with
  | nil => by_cases h : c = contractor <;> simp [set_departure, lookupKey, h]
  | cons cr rest ih =>
    by_cases hcc : cr.1 = c
    · by_cases hct : c = contractor
      · have hc2 : cr.1 = contractor := hcc.trans hct
        simp only [set_departure, List.map_cons, if_pos hc2, lookupKey, List.find?]
        rw [if_pos hct]
        simp [hcc]
      · have hc2 : ¬cr.1 = contractor := fun h => hct (hcc.symm.trans h)
        simp only [set_departure, List.map_cons, if_neg hc2, lookupKey, List.find?]
        rw [if_neg hct]
        simp [hcc]
    · have hstep : lookupKey (set_departure (cr :: rest) contractor route cand) c
          = lookupKey (set_departure rest contractor route cand) c := by
        by_cases hc2 : cr.1 = contractor
        · have hcon_c : ¬(contractor = c) := fun h => hcc (hc2.trans h)
          simp [set_departure, lookupKey, List.find?, hc2, hcon_c]
        · simp [set_departure, lookupKey, List.find?, hc2, hcc]
      rw [hstep, ih]
      by_cases hct : c = contractor
      · rw [if_pos hct, if_pos hct]
        have : lookupKey (cr :: rest) c = lookupKey rest c := by
          simp [lookupKey, List.find?, hcc]
        rw [this]
      · rw [if_neg hct, if_neg hct]
        simp [lookupKey, List.find?, hcc]

/-- Claim C4: the configuration simulated for one candidate —
`set_departure` applied to the original configuration, exactly as
`evaluate_departure_for_route` builds it — differs from the original
only in the targeted route's `departure_time`: every other
(contractor, route) resolves to its unmodified attributes, and the
targeted route keeps its loading location, dumping location and truck
count, with only the departure time replaced. -/
theorem c4_candidate_config_frame (config : Configs) (contractor route cand : String) :
    (∀ c r, ¬(c = contractor ∧ r = route) →
      lookupRoute (set_departure config contractor route cand) c r
        = lookupRoute config c r) ∧
    lookupRoute (set_departure config contractor route cand) contractor route
      = (lookupRoute config contractor route).map
          (fun cfg => { cfg with departure_time := cand }) := by
  constructor
  · intro c r hne
    rw [lookupRoute, lookupKey_outer_update]
    by_cases hc : c = contractor
    · have hr : ¬(r = route) := fun h => hne ⟨hc, h⟩
      rw [if_pos hc]
      cases hlk : lookupKey config c with
      | none => simp [lookupRoute, hlk]
      | some routes =>
        rw [Option.map_some', Option.some_bind, lookupKey_inner_update, if_neg hr]
        simp [lookupRoute, hlk]
    · rw [if_neg hc]
      rfl
  · rw [lookupRoute, lookupKey_outer_update, if_pos rfl]
    cases hlk : lookupKey config contractor with
    | none => simp [lookupRoute, hlk]
    | some routes =>
      rw [Option.map_some', Option.some_bind, lookupKey_inner_update, if_pos rfl]
      simp [lookupRoute, hlk]

/-- Witness for C4 at a concrete configuration: the untouched sibling
route keeps its record and the targeted route keeps every field except
the departure time. -/
theorem c4_candidate_config_frame_witness :
    lookupRoute
        (set_departure
          [("RIM", [("TF", ⟨"TF", "FENI U1 (LINE 65-66)", "7:00", 25⟩),
                    ("KR", ⟨"KR", "FENI U2 (LINE 67-68)", "7:00", 20⟩)])]
          "RIM" "TF" "6:30")
        "RIM" "KR"
      = some ⟨"KR", "FENI U2 (LINE 67-68)", "7:00", 20⟩ := by
  rw [(c4_candidate_config_frame
      [("RIM", [("TF", ⟨"TF", "FENI U1 (LINE 65-66)", "7:00", 25⟩),
                ("KR", ⟨"KR", "FENI U2 (LINE 67-68)", "7:00", 20⟩)])]
      "RIM" "TF" "6:30").1 "RIM" "KR" (by decide)]
  decide

/-! ## Zone aggregation lemmas -/

theorem get_main_feni_zones (s z : String)
    (h : get_main_feni_from_sub_point s = some z) :
    z = "FENI KM 0" ∨ z = "FENI KM 15" := by
  simp only [get_main_feni_from_sub_point, FENI_DUMP_POINTS, get_main_feni_h] at h
  split at h
  · injection h with h
    exact Or.inl h.symm
  · split at h
    · injection h with h
      exact Or.inr h.symm
    · cases h

theorem zone_sums_cons_none (tr : List (String × ℤ)) (x : String × ℚ)
    (rest : List (String × ℚ)) (hz : get_main_feni_from_sub_point x.1 = none) (z : String) :
    zone_weighted_numerator z (x :: rest) tr = zone_weighted_numerator z rest tr
    ∧ zone_truck_denominator z (x :: rest) tr = zone_truck_denominator z rest tr := by
  constructor <;>
    simp [zone_weighted_numerator, zone_truck_denominator, List.filter_cons, hz]

theorem zone_sums_cons_km0 (tr : List (String × ℤ)) (x : String × ℚ)
    (rest : List (String × ℚ))
    (hz : get_main_feni_from_sub_point x.1 = some "FENI KM 0") :
    zone_weighted_numerator "FENI KM 0" (x :: rest) tr
      = x.2 * ((lookupD tr x.1 0 : ℤ) : ℚ) + zone_weighted_numerator "FENI KM 0" rest tr
    ∧ zone_truck_denominator "FENI KM 0" (x :: rest) tr
      = lookupD tr x.1 0 + zone_truck_denominator "FENI KM 0" rest tr
    ∧ zone_weighted_numerator "FENI KM 15" (x :: rest) tr
      = zone_weighted_numerator "FENI KM 15" rest tr
    ∧ zone_truck_denominator "FENI KM 15" (x :: rest) tr
      = zone_truck_denominator "FENI KM 15" rest tr := by
  have hne : ¬(some ("FENI KM 0" : String) = some "FENI KM 15") := by decide
  refine ⟨?_, ?_, ?_, ?_⟩ <;>
    simp [zone_weighted_numerator, zone_truck_denominator, List.filter_cons, hz, hne]

theorem zone_sums_cons_km15 (tr : List (String × ℤ)) (x : String × ℚ)
    (rest : List (String × ℚ))
    (hz : get_main_feni_from_sub_point x.1 = some "FENI KM 15") :
    zone_weighted_numerator "FENI KM 0" (x :: rest) tr
      = zone_weighted_numerator "FENI KM 0" rest tr
    ∧ zone_truck_denominator "FENI KM 0" (x :: rest) tr
      = zone_truck_denominator "FENI KM 0" rest tr
    ∧ zone_weighted_numerator "FENI KM 15" (x :: rest) tr
      = x.2 * ((lookupD tr x.1 0 : ℤ) : ℚ) + zone_weighted_numerator "FENI KM 15" rest tr
    ∧ zone_truck_denominator "FENI KM 15" (x :: rest) tr
      = lookupD tr x.1 0 + zone_truck_denominator "FENI KM 15" rest tr := by
  have hne : ¬(some ("FENI KM 15" : String) = some "FENI KM 0") := by decide
  refine ⟨?_, ?_, ?_, ?_⟩ <;>
    simp [zone_weighted_numerator, zone_truck_denominator, List.filter_cons, hz, hne]

theorem aggregate_zone_waits_eq (sw : List (String × ℚ)) (tr : List (String × ℤ)) :
    aggregate_zone_waits sw tr
      = [("FENI KM 0",
            if 0 < zone_truck_denominator "FENI KM 0" sw tr then
              zone_weighted_numerator "FENI KM 0" sw tr
                / ((zone_truck_denominator "FENI KM 0" sw tr : ℤ) : ℚ)
            else 0),
         ("FENI KM 15",
            if 0 < zone_truck_denominator "FENI KM 15" sw tr then
              zone_weighted_numerator "FENI KM 15" sw tr
                / ((zone_truck_denominator "FENI KM 15" sw tr : ℤ) : ℚ)
            else 0)] := by
  have htot : ∀ (l : List (String × ℚ)) (acc : (ℚ × ℤ) × (ℚ × ℤ)),
      l.foldl
        (fun (acc : (ℚ × ℤ) × (ℚ × ℤ)) sw =>
          match get_main_feni_from_sub_point sw.1 with
          | none => acc
          | some z =>
            let trucks := lookupD tr sw.1 0
            if z = "FENI KM 0" then
              ((acc.1.1 + sw.2 * (trucks : ℚ), acc.1.2 + trucks), acc.2)
            else
              (acc.1, (acc.2.1 + sw.2 * (trucks : ℚ), acc.2.2 + trucks)))
        acc
      = ((acc.1.1 + zone_weighted_numerator "FENI KM 0" l tr,
          acc.1.2 + zone_truck_denominator "FENI KM 0" l tr),
         (acc.2.1 + zone_weighted_numerator "FENI KM 15" l tr,
          acc.2.2 + zone_truck_denominator "FENI KM 15" l tr)) := by
    intro l
    induction l with
    | nil =>
      intro acc
      simp [zone_weighted_numerator, zone_truck_denominator]
    | cons x rest ih =>
      intro acc
      rw [List.foldl_cons]
      cases hz : get_main_feni_from_sub_point x.1 with
      | none =>
        simp only [hz]
        rw [ih, (zone_sums_cons_none tr x rest hz "FENI KM 0").1,
          (zone_sums_cons_none tr x rest hz "FENI KM 0").2,
          (zone_sums_cons_none tr x rest hz "FENI KM 15").1,
          (zone_sums_cons_none tr x rest hz "FENI KM 15").2]
      | some z =>
        rcases get_main_feni_zones x.1 z hz with h0 | h15
        · subst h0
          obtain ⟨e1, e2, e3, e4⟩ := zone_sums_cons_km0 tr x rest hz
          simp only [hz, if_pos]
          rw [ih, e1, e2, e3, e4, Prod.ext_iff, Prod.ext_iff, Prod.ext_iff]
          refine ⟨⟨?_, ?_⟩, ?_, ?_⟩ <;> dsimp only <;> ring
        · subst h15
          obtain ⟨e1, e2, e3, e4⟩ := zone_sums_cons_km15 tr x rest hz
          simp only [hz]
          rw [if_neg (by decide)]
          rw [ih, e1, e2, e3, e4, Prod.ext_iff, Prod.ext_iff, Prod.ext_iff]
          refine ⟨⟨?_, ?_⟩, ?_, ?_⟩ <;> dsimp only <;> ring
  simp only [aggregate_zone_waits]
  rw [htot]
  simp

/-! ## Claim theorems -/

/-- Claim C5: each macro zone's reported average wait equals the sum
over its sub-points of average wait × truck count divided by the zone's
total truck count when that total is positive, and exactly 0 when the
total is zero (the aggregation is a total function on ℚ, so no NaN and
no error); in particular two same-zone sub-points with waits 10 and 20
minutes and truck counts 1 and 3 give a zone average of 17.5 minutes. -/
theorem c5_zone_weighted_average (sw : List (String × ℚ)) (tr : List (String × ℤ)) :
    (aggregate_zone_waits sw tr
      = [("FENI KM 0",
            if 0 < zone_truck_denominator "FENI KM 0" sw tr then
              zone_weighted_numerator "FENI KM 0" sw tr
                / ((zone_truck_denominator "FENI KM 0" sw tr : ℤ) : ℚ)
            else 0),
         ("FENI KM 15",
            if 0 < zone_truck_denominator "FENI KM 15" sw tr then
              zone_weighted_numerator "FENI KM 15" sw tr
                / ((zone_truck_denominator "FENI KM 15" sw tr : ℤ) : ℚ)
            else 0)])
    ∧ aggregate_zone_waits
        [("FENI A (LINE 1-2)", 10), ("FENI A (LINE 3-4)", 20)]
        [("FENI A (LINE 1-2)", 1), ("FENI A (LINE 3-4)", 3)]
      = [("FENI KM 0", 35 / 2), ("FENI KM 15", 0)] := by
  refine ⟨aggregate_zone_waits_eq sw tr, ?_⟩
  rw [aggregate_zone_waits_eq]
  have h1 : get_main_feni_from_sub_point "FENI A (LINE 1-2)" = some "FENI KM 0" := by decide
  have h2 : get_main_feni_from_sub_point "FENI A (LINE 3-4)" = some "FENI KM 0" := by decide
  have hden : zone_truck_denominator "FENI KM 0"
      [("FENI A (LINE 1-2)", (10 : ℚ)), ("FENI A (LINE 3-4)", 20)]
      [("FENI A (LINE 1-2)", (1 : ℤ)), ("FENI A (LINE 3-4)", 3)] = 4 := by
    simp [zone_truck_denominator, List.filter_cons, h1, h2, lookupD, lookupKey, List.find?]
  have hnum : zone_weighted_numerator "FENI KM 0"
      [("FENI A (LINE 1-2)", (10 : ℚ)), ("FENI A (LINE 3-4)", 20)]
      [("FENI A (LINE 1-2)", (1 : ℤ)), ("FENI A (LINE 3-4)", 3)] = 70 := by
    simp [zone_weighted_numerator, List.filter_cons, h1, h2, lookupD, lookupKey, List.find?]
    norm_num
  have hden15 : zone_truck_denominator "FENI KM 15"
      [("FENI A (LINE 1-2)", (10 : ℚ)), ("FENI A (LINE 3-4)", 20)]
      [("FENI A (LINE 1-2)", (1 : ℤ)), ("FENI A (LINE 3-4)", 3)] = 0 := by
    simp [zone_truck_denominator, List.filter_cons, h1, h2]
  rw [hden, hnum, hden15]
  norm_num

/-- Claim C1 (code bug): `get_server_count` at the two macro-zone
aggregate names returns the fixed fallback 2, not the sums of the
zones' sub-point server counts (60 for FENI KM 0 and 8 for FENI KM 15)
that its own docstring and the specification promise.  The root cause
is that `get_main_feni_from_sub_point` only matches sub-point names, so
it maps a zone key to `None` and the aggregated-summing branch is
unreachable. -/
theorem c1_zone_aggregate_returns_fallback :
    get_server_count "FENI KM 0" = 2 ∧ get_server_count "FENI KM 15" = 2
    ∧ sum_sub_point_lines ((lookupKey FENI_DUMP_POINTS "FENI KM 0").getD []) = 60
    ∧ sum_sub_point_lines ((lookupKey FENI_DUMP_POINTS "FENI KM 15").getD []) = 8
    ∧ get_main_feni_from_sub_point "FENI KM 0" = none
    ∧ get_main_feni_from_sub_point "FENI KM 15" = none := by
  refine ⟨?_, ?_, ?_, ?_, ?_, ?_⟩ <;> decide

/-- Counterexample to Claim C2: a route whose departure time "a:b"
splits into two non-integer parts is skipped entirely by
`build_arrival_events` — no arrival events are emitted for it, where
the claim demands per-truck events at the default hour 7.0.  The same
route with departure "7:00" does emit events, isolating the cause. -/
theorem c2_counterexample :
    (build_arrival_events
        [("RIM", [("TF", ⟨"TF", "FENI A (LINE 1-2)", "a:b", 1⟩)])]
        30 30 (fun _ _ _ => none) (1 / 50)).1 = []
    ∧ (build_arrival_events
        [("RIM", [("TF", ⟨"TF", "FENI A (LINE 1-2)", "7:00", 1⟩)])]
        30 30 (fun _ _ _ => none) (1 / 50)).1 ≠ [] := by
  constructor <;> decide

/-- Claim C2 as amended: in `build_arrival_events`, a departure string
that does not split into exactly two ':'-separated parts takes the
ternary default 7.0 and the route's per-truck arrival events are still
emitted; but a departure string that splits into exactly two parts on
which `int` fails is caught by the route-level exception handler, which
skips the route entirely — no events are emitted and nothing is raised
(the embedded route body is total, with `none` marking the skip). -/
theorem c2_amended_departure_parse
    (parking : String) (cfg : RouteCfg) (es ls spacing : ℚ) (lk : Lookup) (z : String)
    (hdump : ¬cfg.dumping_location = "") (hload : ¬cfg.loading_location = "")
    (htr : ¬cfg.number_of_trucks ≤ 0)
    (hz : get_main_feni_from_sub_point cfg.dumping_location = some z) :
    ((pySplit cfg.departure_time ':').length ≠ 2 →
      route_arrivals parking cfg es ls lk spacing
        = some (cfg.dumping_location, z,
            (List.range cfg.number_of_trucks.toNat).map
              (fun i => (7 + (compute_route_times parking cfg.loading_location
                  cfg.dumping_location es ls lk).1 + (i : ℚ) * spacing,
                (compute_route_times parking cfg.loading_location
                  cfg.dumping_location es ls lk).2))))
    ∧ ((pySplit cfg.departure_time ':').length = 2 →
        (pyInt ((pySplit cfg.departure_time ':').getD 0 "") = none
          ∨ pyInt ((pySplit cfg.departure_time ':').getD 1 "") = none) →
        route_arrivals parking cfg es ls lk spacing = none) := by
  have hcond : ¬(cfg.dumping_location = "" ∨ cfg.loading_location = ""
      ∨ cfg.number_of_trucks ≤ 0) :=
    not_or_intro hdump (not_or_intro hload htr)
  constructor
  · intro hlen
    have hp : parse_depart_hour cfg.departure_time = some 7 := by
      unfold parse_depart_hour
      rw [if_neg hlen]
    unfold route_arrivals
    rw [if_neg hcond]
    simp only [hz, hp]
  · intro hlen hfail
    have hp : parse_depart_hour cfg.departure_time = none := by
      unfold parse_depart_hour
      rw [if_pos hlen]
      cases h0 : pyInt ((pySplit cfg.departure_time ':').getD 0 "") with
      | none => simp only [h0]
      | some a =>
        cases h1 : pyInt ((pySplit cfg.departure_time ':').getD 1 "") with
        | none => simp only [h0, h1]
        | some b =>
          rcases hfail with h | h
          · exact absurd (h0.symm.trans h) (by simp)
          · exact absurd (h1.symm.trans h) (by simp)
    unfold route_arrivals
    rw [if_neg hcond]
    simp only [hz, hp]

/-- Witness for the amended C2: a route with the colon-free departure
string "abc" is emitted with default hour 7. -/
theorem c2_amended_departure_parse_witness :
    route_arrivals "TF" ⟨"TF", "FENI A (LINE 1-2)", "abc", 2⟩ 30 30
        (fun _ _ _ => none) (1 / 50)
      = some ("FENI A (LINE 1-2)", "FENI KM 0",
          (List.range (2 : ℤ).toNat).map
            (fun i => (7 + (compute_route_times "TF" "TF" "FENI A (LINE 1-2)"
                30 30 (fun _ _ _ => none)).1 + (i : ℚ) * (1 / 50),
              (compute_route_times "TF" "TF" "FENI A (LINE 1-2)"
                30 30 (fun _ _ _ => none)).2))) :=
  (c2_amended_departure_parse "TF" ⟨"TF", "FENI A (LINE 1-2)", "abc", 2⟩ 30 30 (1 / 50)
    (fun _ _ _ => none) "FENI KM 0" (by decide) (by decide) (by decide) (by decide)).1
    (by decide)

/-- Claim C7: two trucks with service time 0.1 h arriving at 7.0 and
7.02 at a single-server sub-point: the first waits 0, the second waits
0.08 h, so `multi_server_queue` reports an average wait of exactly 2.4
minutes. -/
theorem c7_two_truck_single_server :
    (multi_server_queue [((7 : ℚ), 0.1), (7.02, 0.1)] 1).1 = 2.4 := by
  norm_num [multi_server_queue, queue_run, queue_step, poolMin, List.indexOf_cons_self,
    List.cons_ne_nil]

/-- Counterexample to Claim C8: on a hierarchy whose sub-point "X" has
the malformed lines range "bad", `get_server_count` recovers with 1
server as claimed, but the second reachable implementation
`_num_servers_for` raises `ValueError` (modelled by `none`) instead of
returning 1, so the claim fails for it. -/
theorem c8_counterexample :
    get_server_count_h [("Z", [("X", "bad")])] "X" = 1
    ∧ num_servers_for_h [("Z", [("X", "bad")])] "X" = none := by
  constructor <;> decide

/-- Claim C8 as amended: for every hierarchy and sub-point whose lines
range fails to parse, `get_server_count` returns 1 and never raises (it
is total); `_num_servers_for` instead raises on such a hierarchy; on
the shipped hierarchy every lines range is well-formed, so
`_num_servers_for` never actually raises. -/
theorem c8_amended_malformed_lines :
    (∀ (h : Hierarchy) (s : String) (zc : String × List (String × String)),
      ¬s = "" → h.find? (fun p => containsKey p.2 s) = some zc →
      (lookupKey zc.2 s).bind linesRangeCount = none →
      get_server_count_h h s = 1)
    ∧ num_servers_for_h [("Z", [("X", "bad")])] "X" = none
    ∧ (∀ t, (num_servers_for t).isSome) := by
  refine ⟨?_, by decide, num_servers_for_isSome⟩
  intro h s zc hs hfind hbind
  unfold get_server_count_h
  rw [if_neg hs]
  simp only [hfind, hbind]

/-- Witness for the amended C8: the malformed sub-point "X" gets 1
server from `get_server_count`. -/
theorem c8_amended_malformed_lines_witness :
    get_server_count_h [("Z", [("X", "bad")])] "X" = 1 :=
  c8_amended_malformed_lines.1 [("Z", [("X", "bad")])] "X" ("Z", [("X", "bad")])
    (by decide) (by decide) (by decide)

/-- Claim C9: an optimisation pass leaves the caller's configuration
mapping unchanged.  In the state-passing embedding every dict write of
the source targets a `copy.deepcopy` copy, so the caller-visible
configuration returned by `optimise_departure_times_state` is
structurally equal to the input. -/
theorem c9_optimiser_preserves_configs (configs : Configs) (es ls : ℚ)
    (cands : List String) (lk : Lookup) (sp : ℚ) :
    (optimise_departure_times_state configs es ls cands lk sp).2 = configs := rfl

/-- Claim C10: `multi_server_queue` returns a result for every integer
server count (the embedding is total); the pool is clamped to
`max(1, num_servers)` servers, so any non-positive count behaves
exactly as a single-server queue. -/
theorem c10_nonpositive_servers_single (arrivals : List (ℚ × ℚ)) (num_servers : ℤ)
    (h : num_servers ≤ 0) :
    multi_server_queue arrivals num_servers = multi_server_queue arrivals 1 := by
  have hmax : max (1 : ℤ) num_servers = 1 := max_eq_left (by omega)
  simp only [multi_server_queue, hmax, max_self]

/-- Witness for C10 at a negative server count. -/
theorem c10_nonpositive_servers_single_witness :
    multi_server_queue [((7 : ℚ), 0.1)] (-3) = multi_server_queue [((7 : ℚ), 0.1)] 1 :=
  c10_nonpositive_servers_single _ (-3) (by decide)

/-- Witness for C3 on a one-route configuration with candidate list
["7:00"], for which the optimiser's output evaluates by `rfl`. -/
theorem c3_optimiser_non_regression_witness :
    eval_total [("CKB", [("TF", ⟨"TF", "FENI U1 (LINE 65-66)", "7:00", 0⟩)])]
        "CKB" "TF" "7:00" 30 30 (fun _ _ _ => none) (1 / 50)
      ≤ eval_total [("CKB", [("TF", ⟨"TF", "FENI U1 (LINE 65-66)", "7:00", 0⟩)])]
        "CKB" "TF" "7:00" 30 30 (fun _ _ _ => none) (1 / 50) :=
  c3_optimiser_non_regression
    [("CKB", [("TF", ⟨"TF", "FENI U1 (LINE 65-66)", "7:00", 0⟩)])] 30 30 ["7:00"]
    (fun _ _ _ => none) (1 / 50)
    [("CKB", [("TF", ("7:00", "7:00"))])]
    [("FENI KM 0", 0), ("FENI KM 15", 0)] [("FENI KM 0", 0), ("FENI KM 15", 0)]
    rfl
    "CKB" [("TF", ("7:00", "7:00"))] (by decide)
    "TF" "7:00" "7:00" (by decide) (by decide)

/-- Witness for C6: the concrete two-truck scenario with 1 versus 2
servers. -/
theorem c6_multi_server_queue_monotone_witness :
    (multi_server_queue [((7 : ℚ), 0.1), (7.02, 0.1)] 2).1
      ≤ (multi_server_queue [((7 : ℚ), 0.1), (7.02, 0.1)] 1).1 :=
  c6_multi_server_queue_monotone [((7 : ℚ), 0.1), (7.02, 0.1)] 1 2
    (by norm_num [List.sorted_cons]) (by norm_num) (by norm_num)
